import Mathlib

/-!
Shallow embedding of the modev export pipeline (`src/modev/build.py` and
`src/modev/cli.py`).  Python strings are modelled as `List Char`, Python sets
of defined names as duplicate-free lists, and filesystem paths as lists of
path components.  Fallible or effectful steps (loading a notebook, writing a
file) are modelled with `Option` and explicit oracles in the environment.
-/

namespace Modev

/-- Python strings, modelled as lists of characters. -/
abbrev Str := List Char

/-- The export tag marker `"#| export"` (build.py line 100). -/
def marker : Str := "#| export".data

/-- Python substring test `pat in s` (build.py line 100). -/
def hasSubstr (pat : Str) : Str → Bool
  | [] => pat.isEmpty
  | c :: t => pat.isPrefixOf (c :: t) || hasSubstr pat t

/-- Python `s.replace(pat, rep, 1)`: replace the first (leftmost) occurrence
of `pat` in `s` by `rep` (build.py line 150). -/
def replaceFirst : Str → Str → Str → Str
  | [], pat, rep => if pat.isEmpty then rep else []
  | c :: t, pat, rep =>
    if pat.isPrefixOf (c :: t) then rep ++ (c :: t).drop pat.length
    else c :: replaceFirst t pat rep

/-- Python `s.strip()`: remove leading and trailing whitespace.  Lean's
`Char.isWhitespace` covers the whitespace characters occurring in practice. -/
def pyStrip (s : Str) : Str :=
  ((s.dropWhile Char.isWhitespace).reverse.dropWhile Char.isWhitespace).reverse

/-- Match the directive pattern at one candidate position: the regex
`#\|\s*default_exp\s+(\S+)` read from the start of `s`, returning the
captured group (build.py line 112). -/
def matchDirectiveAt (s : Str) : Option Str :=
  if "#|".data.isPrefixOf s then
    let s1 := (s.drop 2).dropWhile Char.isWhitespace
    if "default_exp".data.isPrefixOf s1 then
      let s2 := s1.drop 11
      match s2 with
      | [] => none
      | c :: _ =>
        if c.isWhitespace then
          match (s2.dropWhile Char.isWhitespace).takeWhile (fun ch => !ch.isWhitespace) with
          | [] => none
          | name => some name
        else none
    else none
  else none

/-- Suffixes of `s` that start just after a newline: the candidate positions
of the `re.MULTILINE` anchor `^`, besides the start of the string. -/
def lineTails : Str → List Str
  | [] => []
  | c :: t => if c = '\n' then t :: lineTails t else lineTails t

/-- Model of `re.search(r"^#\|\s*default_exp\s+(\S+)", code, re.MULTILINE)`
(build.py line 112): try the pattern at the start of the string and after
every newline, in order, and return the first captured group. -/
def findDirectiveName (code : Str) : Option Str :=
  (code :: lineTails code).findSome? matchDirectiveAt

/-- Lines 113-121 of build.py: strip the captured name, drop it when empty,
and append `.py` when the extension is missing. -/
def directiveTarget (code : Str) : Option Str :=
  match findDirectiveName code with
  | none => none
  | some raw =>
    let t := pyStrip raw
    if t.isEmpty then none
    else if ".py".data.isSuffixOf t then some t
    else some (t ++ ".py".data)

/-- One marimo cell as consumed by `extract_export_details`: stable
identifier, source text, language tag, and (when the attribute is present)
the set of names it defines. -/
structure Cell where
  cellId : Str
  code : Str
  language : Str
  defs : Option (List Str)
deriving DecidableEq

/-- The part of a marimo `App` consumed by `extract_export_details`:
`graph.cells` as an association list in definition (insertion) order, and
`execution_order`. -/
structure App where
  cells : List (Str × Cell)
  executionOrder : List Str
deriving DecidableEq

/-- Build.py lines 98-101: a cell is exportable iff its language tag is
`"python"` and its code contains the export marker as a substring. -/
def isExportableCell (c : Cell) : Bool :=
  c.language == "python".data && hasSubstr marker c.code

/-- The dictionary `export_cells` (build.py lines 98-101): the graph's cells,
in definition order, restricted to the exportable ones. -/
def exportCells (app : App) : List (Str × Cell) :=
  app.cells.filter fun p => isExportableCell p.2

/-- Line 149: `f"# Exported from {path} (cell ID: {cell.cell_id})"`. -/
def originComment (relPath cellId : Str) : Str :=
  "# Exported from ".data ++ relPath ++ " (cell ID: ".data ++ cellId ++ ")".data

/-- Line 150: the cell's code with the first marker occurrence replaced by
the origin comment, then stripped. -/
def cleanedCode (relPath : Str) (c : Cell) : Str :=
  pyStrip (replaceFirst c.code marker (originComment relPath c.cellId))

/-- Lines 152-156: the text a single cell appends to `code_export`. -/
def cellContrib (relPath : Str) (c : Cell) : Str :=
  if (cleanedCode relPath c).isEmpty then []
  else if (originComment relPath c.cellId).isPrefixOf (cleanedCode relPath c) then
    cleanedCode relPath c ++ "\n\n".data
  else originComment relPath c.cellId ++ "\n".data ++ cleanedCode relPath c ++ "\n\n".data

/-- Lines 146-161: the loop over the execution order, accumulating
`code_export` and `all_defs`. -/
def buildLoop (app : App) (relPath : Str) : Str × List Str :=
  app.executionOrder.foldl
    (fun acc id =>
      match (exportCells app).lookup id with
      | none => acc
      | some cell =>
        (acc.1 ++ cellContrib relPath cell,
         match cell.defs with
         | some ds => acc.2 ∪ ds
         | none => acc.2))
    ([], ∅)

/-- Model of `extract_export_details` (build.py lines 83-168): the directive
target filename (if any, taken from the first exportable cell in definition
order), the assembled export code, and the union of the defined-name sets of
the included cells. -/
def extract_export_details (app : App) (relPath : Str) :
    Option Str × Str × List Str :=
  let targetFilename :=
    match (exportCells app).head? with
    | none => none
    | some (firstId, _) =>
      match app.cells.lookup firstId with
      | none => none
      | some firstCell =>
        if firstCell.language == "python".data then directiveTarget firstCell.code
        else none
  let res := buildLoop app relPath
  (targetFilename, pyStrip res.1, res.2)

/-- Python `repr` of a list of identifier strings (build.py line 258), e.g.
`['Baz', 'foo']`.  Faithful for names without quotes or backslashes, which
covers all Python identifiers. -/
def pyReprStrList (names : List Str) : Str :=
  "[".data ++ List.intercalate ", ".data (names.map fun n => "'".data ++ n ++ "'".data)
    ++ "]".data

/-- Lines 256-257: the distinct public defined names (no leading underscore),
sorted in the code-point lexicographic order Python `sorted` uses. -/
def publicSortedNames (defs : List Str) : List Str :=
  List.insertionSort (· ≤ ·) ((defs.filter fun n => !("_".data.isPrefixOf n)).dedup)

/-- Lines 256-258: the `__all__` manifest line followed by a blank line. -/
def manifestLine (defs : List Str) : Str :=
  "__all__ = ".data ++ pyReprStrList (publicSortedNames defs) ++ "\n\n".data

/-- A resolved output path: path components below the filesystem root. -/
abbrev OutPath := List Str

/-- Warnings and per-file errors reported by `run_export`. -/
inductive RunWarning where
  | sameRunCollision (p : OutPath)
  | priorFileOverwrite (p : OutPath)
  | writeFailure (p : OutPath)
deriving DecidableEq

/-- One discovered notebook file: its path relative to the notebook root (as
components), the provenance path string used in origin comments, and the
result of loading it (`none` models an import/load failure, or a module
without an `app` object; both are caught inside the per-notebook loop). -/
structure Notebook where
  fileRelPath : List Str
  provenancePath : Str
  loaded : Option App
deriving DecidableEq

/-- Line 216: `if py_file.name == '__init__.py': continue`. -/
def isInitFile (nb : Notebook) : Bool :=
  nb.fileRelPath.getLast? == some "__init__.py".data

/-- The run-scoped observable state of `run_export`: the success counter, the
`written_files` record, the chronological sequence of performed writes, and
the warnings emitted so far. -/
structure ObsState where
  exportedCount : Nat
  writtenFiles : List OutPath
  writes : List (OutPath × Str)
  warnings : List RunWarning
deriving DecidableEq

/-- Full per-run state: the observable state plus the processed-files
counter. -/
structure RunState extends ObsState where
  processedCount : Nat
deriving DecidableEq

/-- The environment of one `run_export` invocation: configuration results,
filesystem oracles, and the notebooks discovered under the notebook root in
traversal order. -/
structure Env where
  exportRoot : OutPath
  exportRootCreatable : Bool
  nbsDirIsDir : Bool
  diskHas : OutPath → Bool
  writeOk : OutPath → Bool
  notebooks : List Notebook

/-- Lines 240-250: the destination of a notebook's assembled code. -/
def resolvedPath (env : Env) (nb : Notebook) (targetFilename : Option Str) :
    OutPath :=
  match targetFilename with
  | some f => env.exportRoot ++ [f]
  | none => env.exportRoot ++ nb.fileRelPath

/-- Lines 242-253: for directive-named outputs, emit a same-run collision
warning when the path is already in `written_files`, a lower-severity warning
when the file merely exists already, and record the path; default-path
outputs are not recorded. -/
def recordDirective (env : Env) (st : ObsState) (p : OutPath)
    (targetFilename : Option Str) : ObsState :=
  match targetFilename with
  | some _ =>
    if st.writtenFiles.contains p then
      { st with warnings := st.warnings ++ [RunWarning.sameRunCollision p],
                writtenFiles := st.writtenFiles ++ [p] }
    else if env.diskHas p || st.writes.any (fun w => w.1 == p) then
      { st with warnings := st.warnings ++ [RunWarning.priorFileOverwrite p],
                writtenFiles := st.writtenFiles ++ [p] }
    else
      { st with writtenFiles := st.writtenFiles ++ [p] }
  | none => st

/-- Lines 210-274: the body of the per-notebook loop, after the processed
counter has been incremented. -/
def exportStep (env : Env) (st : ObsState) (nb : Notebook) : ObsState :=
  if isInitFile nb then st
  else
    match nb.loaded with
    | none => st
    | some app =>
      let r := extract_export_details app nb.provenancePath
      if r.2.1.isEmpty then st
      else
        let p := resolvedPath env nb r.1
        let st1 := recordDirective env st p r.1
        if env.writeOk p then
          { st1 with writes := st1.writes ++ [(p, manifestLine r.2.2 ++ r.2.1)],
                     exportedCount := st1.exportedCount + 1 }
        else
          { st1 with warnings := st1.warnings ++ [RunWarning.writeFailure p] }

/-- One iteration of the per-notebook loop: line 208 increments the processed
counter, the rest is `exportStep`. -/
def processNotebook (env : Env) (st : RunState) (nb : Notebook) : RunState :=
  { toObsState := exportStep env st.toObsState nb,
    processedCount := st.processedCount + 1 }

/-- The per-notebook loop over all discovered files. -/
def processAll (env : Env) (st : RunState) (nbs : List Notebook) : RunState :=
  nbs.foldl (processNotebook env) st

/-- The state at the start of a run. -/
def initialRunState : RunState :=
  { exportedCount := 0, writtenFiles := [], writes := [], warnings := [],
    processedCount := 0 }

/-- Model of `run_export` (build.py lines 170-289) at the granularity of the
claims: fatal conditions (export root not creatable, notebook root missing or
not a directory) abort with exit code 1; otherwise the per-notebook loop runs
to completion and the command exits with code 0. -/
def run_export (env : Env) : Except Nat RunState :=
  if env.exportRootCreatable = false then Except.error 1
  else if env.nbsDirIsDir = false then Except.error 1
  else Except.ok (processAll env initialRunState env.notebooks)

/-- Last-write-wins filesystem semantics: the content a path holds after a
chronological sequence of writes. -/
def finalContent (writes : List (OutPath × Str)) (p : OutPath) : Option Str :=
  ((writes.filter fun w => w.1 == p).getLast?).map fun w => w.2

/-- The exportable cells of a notebook, in execution order (the cells whose
contributions make up the assembled code). -/
def orderedExportCells (app : App) : List Cell :=
  app.executionOrder.filterMap fun id => (exportCells app).lookup id

/-! ### Basic facts about the string model -/

lemma isPrefixOf_eq {l₁ l₂ : Str} : l₁.isPrefixOf l₂ = true ↔ l₁ <+: l₂ :=
  List.isPrefixOf_iff_prefix

lemma hasSubstr_iff {pat s : Str} : hasSubstr pat s = true ↔ pat <:+: s := by
  induction s with
  | nil => simp [hasSubstr, List.isEmpty_iff, List.infix_nil]
  | cons c t ih =>
    simp only [hasSubstr, Bool.or_eq_true, isPrefixOf_eq, ih,
      List.infix_cons_iff]

lemma replaceFirst_spec {s pat : Str} (rep : Str) (h : pat <:+: s) :
    ∃ u v, s = u ++ pat ++ v ∧ replaceFirst s pat rep = u ++ rep ++ v ∧
      ∀ u' v', s = u' ++ pat ++ v' → u.length ≤ u'.length := by
  induction s with
  | nil =>
    rw [List.infix_nil] at h
    subst h
    exact ⟨[], [], rfl, by simp [replaceFirst], fun u' v' _ => Nat.zero_le _⟩
  | cons c t ih =>
    by_cases hp : pat.isPrefixOf (c :: t)
    · have hp' := isPrefixOf_eq.mp hp
      obtain ⟨w, hw⟩ := hp'
      refine ⟨[], (c :: t).drop pat.length, ?_, ?_, fun u' v' _ => Nat.zero_le _⟩
      · rw [← hw, List.drop_left]
        simp
      · simp only [replaceFirst, if_pos hp]
        rw [← hw, List.drop_left]
        simp
    · have hpat : ¬ pat <+: (c :: t) := fun hc => hp (isPrefixOf_eq.mpr hc)
      obtain ⟨u, v, huv⟩ := h
      cases u with
      | nil => exact absurd ⟨v, by simpa using huv⟩ hpat
      | cons d u' =>
        have huv2 : u' ++ pat ++ v = t := by
          have : d = c ∧ u' ++ pat ++ v = t := by simpa using huv
          exact this.2
        have ht : pat <:+: t := ⟨u', v, huv2⟩
        obtain ⟨u₀, v₀, h1, h2, h3⟩ := ih ht
        refine ⟨c :: u₀, v₀, by simpa using h1, ?_, ?_⟩
        · simp only [replaceFirst, if_neg hp]
          rw [h2]
          simp
        · intro u' v' huv'
          cases u' with
          | nil => exact absurd ⟨v', by simpa using huv'.symm⟩ hpat
          | cons e u'' =>
            have he : c = e ∧ t = u'' ++ (pat ++ v') := by simpa using huv'
            have := h3 u'' v' (by simpa using he.2)
            simpa using Nat.succ_le_succ this

lemma rep_infix_replaceFirst {s pat : Str} (rep : Str) (h : pat <:+: s) :
    rep <:+: replaceFirst s pat rep := by
  obtain ⟨u, v, _, h2, _⟩ := replaceFirst_spec rep h
  exact h2 ▸ ⟨u, v, rfl⟩

/-- A pattern with no self-overlap: no strict shift aligns the pattern with
itself. -/
def NoSelfOverlap (pat : Str) : Prop :=
  ∀ k, k < pat.length → 0 < k → pat.drop k ≠ pat.take (pat.length - k)

lemma prefix_split_of_le {pat x y : Str} (h : pat <+: x ++ y)
    (hle : pat.length ≤ x.length) : pat <+: x := by
  have h2 : (x ++ y).take pat.length = pat := by
    obtain ⟨w, hw⟩ := h
    rw [← hw, List.take_append_eq_append_take]
    simp
  rw [List.take_append_eq_append_take, Nat.sub_eq_zero_of_le hle, List.take_zero,
    List.append_nil] at h2
  exact h2 ▸ List.take_prefix _ _

lemma overlap_of_shifted_occurrence {pat u w b : Str} (hw : pat ++ w = u ++ (pat ++ b))
    (hlt : u.length < pat.length) :
    pat.drop u.length = pat.take (pat.length - u.length) := by
  have h1 : pat = (u ++ (pat ++ b)).take pat.length := by
    rw [← hw, List.take_append_eq_append_take]
    simp
  have h2 : pat = u ++ pat.take (pat.length - u.length) := by
    rw [List.take_append_eq_append_take, List.take_of_length_le (Nat.le_of_lt hlt),
      List.take_append_eq_append_take] at h1
    have hb : pat.length - u.length - pat.length = 0 := by omega
    rw [hb, List.take_zero, List.append_nil] at h1
    exact h1
  conv_lhs => rw [h2]
  rw [List.drop_left]

lemma replaceFirst_append {pat : Str} (hne : pat ≠ []) (hov : NoSelfOverlap pat)
    (rep : Str) : ∀ a b : Str, ¬ pat <:+: a →
    replaceFirst (a ++ (pat ++ b)) pat rep = a ++ (rep ++ b) := by
  intro a
  induction a with
  | nil =>
    intro b _
    cases pat with
    | nil => exact absurd rfl hne
    | cons p0 pt =>
      have hpre : (p0 :: pt).isPrefixOf (p0 :: (pt ++ b)) = true :=
        isPrefixOf_eq.mpr (List.prefix_append (p0 :: pt) b)
      show replaceFirst (p0 :: (pt ++ b)) (p0 :: pt) rep = [] ++ (rep ++ b)
      simp only [replaceFirst]
      rw [if_pos hpre]
      rw [show p0 :: (pt ++ b) = (p0 :: pt) ++ b from rfl, List.drop_left]
      simp
  | cons c a' ih =>
    intro b ha
    have hnp : ¬ pat.isPrefixOf (c :: (a' ++ (pat ++ b))) := by
      rw [isPrefixOf_eq]
      intro hpre
      have hpre' : pat <+: (c :: a') ++ (pat ++ b) := by simpa using hpre
      rcases le_or_lt pat.length (c :: a').length with hle | hlt
      · exact ha ((prefix_split_of_le hpre' hle).isInfix)
      · obtain ⟨w, hw⟩ := hpre'
        have := overlap_of_shifted_occurrence hw hlt
        exact hov (c :: a').length hlt (by simp) this
    have ha' : ¬ pat <:+: a' := fun hc => ha (List.infix_cons hc)
    calc replaceFirst ((c :: a') ++ (pat ++ b)) pat rep
        = replaceFirst (c :: (a' ++ (pat ++ b))) pat rep := rfl
      _ = c :: replaceFirst (a' ++ (pat ++ b)) pat rep := by
          simp only [replaceFirst, if_neg hnp]
      _ = c :: (a' ++ (rep ++ b)) := by rw [ih b ha']
      _ = (c :: a') ++ (rep ++ b) := rfl

/-! ### Facts about `pyStrip` -/

lemma pyStrip_within (s : Str) : pyStrip s <:+: s := by
  have h1 : s.dropWhile Char.isWhitespace <:+ s := List.dropWhile_suffix _
  have h2 : ((s.dropWhile Char.isWhitespace).reverse.dropWhile Char.isWhitespace).reverse
      <+: s.dropWhile Char.isWhitespace := by
    rw [← List.reverse_suffix]
    simpa using @List.dropWhile_suffix Char
      ((s.dropWhile Char.isWhitespace).reverse) Char.isWhitespace
  exact (h2.isInfix).trans h1.isInfix

lemma mem_pyStrip {s : Str} {c : Char} (hm : c ∈ s) (hc : ¬ c.isWhitespace) :
    c ∈ pyStrip s := by
  have step : ∀ (t : Str), c ∈ t → c ∈ t.dropWhile Char.isWhitespace := by
    intro t ht
    rcases (List.mem_append.mp
      ((List.takeWhile_append_dropWhile Char.isWhitespace t) ▸ ht)) with h | h
    · exact absurd (List.mem_takeWhile_imp h) hc
    · exact h
  have h1 := step s hm
  have h2 := step _ (List.mem_reverse.mpr h1)
  simpa [pyStrip] using List.mem_reverse.mpr h2

lemma pyStrip_ne_nil {s : Str} {c : Char} (hm : c ∈ s) (hc : ¬ c.isWhitespace) :
    pyStrip s ≠ [] :=
  List.ne_nil_of_mem (mem_pyStrip hm hc)

lemma dropWhile_keep {p : Char → Bool} {c : Char} (hc : p c = false)
    (u rest v : Str) :
    ∃ u', List.dropWhile p (u ++ ((c :: rest) ++ v)) = u' ++ ((c :: rest) ++ v) := by
  rw [List.dropWhile_append]
  by_cases he : (List.dropWhile p u).isEmpty
  · simp only [he, if_true]
    refine ⟨[], ?_⟩
    rw [show (c :: rest) ++ v = c :: (rest ++ v) from rfl, List.dropWhile_cons_of_neg]
    · simp
    · simp [hc]
  · simp only [he, if_false]
    exact ⟨List.dropWhile p u, by simp⟩

lemma infix_pyStrip {pat s : Str} (hin : pat <:+: s) {c d : Char}
    (hhead : pat.head? = some c) (hc : ¬ c.isWhitespace)
    (hlast : pat.getLast? = some d) (hd : ¬ d.isWhitespace) :
    pat <:+: pyStrip s := by
  obtain ⟨u, v, huv⟩ := hin
  obtain ⟨c0, rest, rfl⟩ : ∃ c0 rest, pat = c0 :: rest := by
    cases pat with
    | nil => simp at hhead
    | cons a b => exact ⟨a, b, rfl⟩
  have hcw : c0.isWhitespace = false := by
    have : c0 = c := by simpa using hhead
    rw [this]
    simpa using hc
  have step1 : ∃ u', List.dropWhile Char.isWhitespace s = u' ++ ((c0 :: rest) ++ v) := by
    rw [← huv, List.append_assoc]
    exact dropWhile_keep hcw u rest v
  obtain ⟨u', hu'⟩ := step1
  -- now strip the reversed string, whose head is the last char of `pat`
  obtain ⟨q, hq⟩ : ∃ q, (c0 :: rest) = q ++ [d] :=
    List.getLast?_eq_some_iff.mp (by simpa using hlast)
  have hdw : d.isWhitespace = false := by simpa using hd
  have hrev : (List.dropWhile Char.isWhitespace s).reverse
      = v.reverse ++ ((d :: q.reverse) ++ (u'.reverse)) := by
    rw [hu', hq]
    simp
  have step2 : ∃ v', List.dropWhile Char.isWhitespace
      ((List.dropWhile Char.isWhitespace s).reverse)
      = v' ++ ((d :: q.reverse) ++ u'.reverse) := by
    rw [hrev]
    exact dropWhile_keep hdw v.reverse q.reverse u'.reverse
  obtain ⟨v', hv'⟩ := step2
  refine ⟨u', v'.reverse, ?_⟩
  have hps : pyStrip s = u' ++ ((q ++ [d]) ++ v'.reverse) := by
    unfold pyStrip
    rw [hv']
    simp
  rw [hps, hq]
  simp

lemma pyStrip_append_ws {s w : Str} (hw : ∀ x ∈ w, x.isWhitespace) :
    pyStrip (s ++ w) = pyStrip s := by
  unfold pyStrip
  rw [List.dropWhile_append]
  by_cases he : (List.dropWhile Char.isWhitespace s).isEmpty
  · simp only [he, if_true]
    have hwnil : List.dropWhile Char.isWhitespace w = [] :=
      List.dropWhile_eq_nil_iff.mpr hw
    rw [hwnil]
    simp [List.isEmpty_iff.mp he]
  · rw [if_neg he, List.reverse_append, List.dropWhile_append]
    have hwrev : List.dropWhile Char.isWhitespace w.reverse = [] :=
      List.dropWhile_eq_nil_iff.mpr (by simpa using hw)
    rw [hwrev]
    simp

lemma pyStrip_of_ends {s : Str} {c d : Char} (hhead : s.head? = some c)
    (hc : ¬ c.isWhitespace) (hlast : s.getLast? = some d) (hd : ¬ d.isWhitespace) :
    pyStrip s = s := by
  obtain ⟨c0, rest, rfl⟩ : ∃ c0 rest, s = c0 :: rest := by
    cases s with
    | nil => simp at hhead
    | cons a b => exact ⟨a, b, rfl⟩
  have hcw : c0.isWhitespace = false := by
    have : c0 = c := by simpa using hhead
    rw [this]
    simpa using hc
  obtain ⟨q, hq⟩ : ∃ q, (c0 :: rest) = q ++ [d] :=
    List.getLast?_eq_some_iff.mp (by simpa using hlast)
  have hdw : d.isWhitespace = false := by simpa using hd
  unfold pyStrip
  rw [List.dropWhile_cons_of_neg (by simp [hcw]), hq]
  rw [List.reverse_append]
  simp only [List.reverse_cons, List.reverse_nil, List.nil_append, List.singleton_append]
  rw [List.dropWhile_cons_of_neg (by simp [hdw])]
  simp

/-! ### Occurrences of a pattern in a concatenation -/

lemma infix_append_cases {pat x y : Str} (h : pat <:+: x ++ y) :
    pat <:+: x ∨ pat <:+: y ∨
      ∃ k, 0 < k ∧ k < pat.length ∧ pat.take k <:+ x ∧ pat.drop k <+: y := by
  obtain ⟨u, v, huv⟩ := h
  have huv' : u ++ (pat ++ v) = x ++ y := by simpa [List.append_assoc] using huv
  rcases le_or_lt x.length u.length with hle | hlt
  · right; left
    have h2 : (u ++ (pat ++ v)).drop x.length = y := by rw [huv', List.drop_left]
    rw [List.drop_append_eq_append_drop, Nat.sub_eq_zero_of_le hle,
      List.drop_zero] at h2
    exact ⟨u.drop x.length, v, by rw [← List.append_assoc] at h2; exact h2⟩
  · have h1 : (u ++ (pat ++ v)).take x.length = x := by rw [huv', List.take_left]
    rcases le_or_lt (u.length + pat.length) x.length with hin | hout
    · left
      rw [List.take_append_eq_append_take, List.take_of_length_le (Nat.le_of_lt hlt),
        List.take_append_eq_append_take,
        List.take_of_length_le (by omega : pat.length ≤ x.length - u.length)] at h1
      exact ⟨u, (v.take (x.length - u.length - pat.length)),
        by rw [← List.append_assoc] at h1; exact h1⟩
    · right; right
      refine ⟨x.length - u.length, by omega, by omega, ?_, ?_⟩
      · rw [List.take_append_eq_append_take, List.take_of_length_le (Nat.le_of_lt hlt),
          List.take_append_eq_append_take] at h1
        have hz : x.length - u.length - pat.length = 0 := by omega
        rw [hz, List.take_zero, List.append_nil] at h1
        exact ⟨u, h1⟩
      · have h2 : (u ++ (pat ++ v)).drop x.length = y := by rw [huv', List.drop_left]
        rw [List.drop_append_eq_append_drop,
          List.drop_eq_nil_of_le (Nat.le_of_lt hlt), List.nil_append,
          List.drop_append_eq_append_drop] at h2
        have hz2 : x.length - u.length - pat.length = 0 := by omega
        rw [hz2, List.drop_zero] at h2
        exact ⟨v, h2⟩

lemma prefix_head {p t : Str} (h : p <+: t) (hne : p ≠ []) : p.head? = t.head? := by
  obtain ⟨w, hw⟩ := h
  rw [← hw, List.head?_append]
  cases p with
  | nil => exact absurd rfl hne
  | cons a b => rfl

lemma suffix_getLast {p t : Str} (h : p <:+ t) (hne : p ≠ []) :
    p.getLast? = t.getLast? := by
  rcases List.eq_nil_or_concat p with rfl | ⟨q, a, rfl⟩
  · exact absurd rfl hne
  · obtain ⟨w, hw⟩ := h
    rw [List.concat_eq_append] at hw ⊢
    rw [List.getLast?_concat, ← hw, ← List.append_assoc, List.getLast?_concat]

/-! ### Character-level facts about the marker and the origin comment -/

lemma marker_ne_nil : marker ≠ [] := by decide

lemma marker_length : marker.length = 9 := by decide

lemma marker_noSelfOverlap : NoSelfOverlap marker := by
  unfold NoSelfOverlap
  decide

lemma newline_not_mem_marker : '\n' ∉ marker := by decide

lemma rparen_not_mem_marker : ')' ∉ marker := by decide

lemma marker_drop_head : ∀ k, k < marker.length → 0 < k →
    (marker.drop k).head? ≠ some '#' := by decide

lemma originComment_head? (relPath cellId : Str) :
    (originComment relPath cellId).head? = some '#' := rfl

lemma originComment_getLast? (relPath cellId : Str) :
    (originComment relPath cellId).getLast? = some ')' := by
  unfold originComment
  rw [show (")".data : Str) = [')'] from rfl, List.getLast?_concat]

lemma originComment_ne_nil (relPath cellId : Str) :
    originComment relPath cellId ≠ [] := by
  intro h
  have hh := originComment_head? relPath cellId
  rw [h] at hh
  simp at hh

lemma hash_mem_originComment (relPath cellId : Str) :
    '#' ∈ originComment relPath cellId := by
  unfold originComment
  simp

lemma not_marker_infix_short {y : Str} (hlen : y.length < marker.length) :
    ¬ marker <:+: y := fun h => absurd h.length_le (by omega)

lemma not_marker_infix_append_left {x y : Str} (hx : ¬ marker <:+: x)
    (hy : ¬ marker <:+: y) {d : Char} (hlast : x.getLast? = some d)
    (hd : d ∉ marker) : ¬ marker <:+: x ++ y := by
  intro h
  rcases infix_append_cases h with h' | h' | ⟨k, hk0, hklen, hsuf, _⟩
  · exact hx h'
  · exact hy h'
  · have htk : marker.take k ≠ [] := by
      intro hnil
      have hl := congrArg List.length hnil
      rw [List.length_take, marker_length] at hl
      simp at hl
      omega
    have hgl := suffix_getLast hsuf htk
    rw [hlast] at hgl
    have hmem : d ∈ marker.take k := List.mem_of_mem_getLast? hgl
    exact hd (List.take_subset _ _ hmem)

lemma not_marker_infix_append_right {x y : Str} (hx : ¬ marker <:+: x)
    (hy : ¬ marker <:+: y) {d : Char} (hhead : y.head? = some d)
    (hd : d ∉ marker) : ¬ marker <:+: x ++ y := by
  intro h
  rcases infix_append_cases h with h' | h' | ⟨k, hk0, hklen, _, hpre⟩
  · exact hx h'
  · exact hy h'
  · have hdk : marker.drop k ≠ [] := by
      intro hnil
      have hl := congrArg List.length hnil
      rw [List.length_drop, marker_length, List.length_nil] at hl
      rw [marker_length] at hklen
      omega
    have hhd := prefix_head hpre hdk
    rw [hhead] at hhd
    have hmem : d ∈ marker.drop k := List.mem_of_mem_head? hhd
    exact hd (List.drop_subset _ _ hmem)

lemma not_marker_infix_append_hash {x y : Str} (hx : ¬ marker <:+: x)
    (hy : ¬ marker <:+: y) (hhead : y.head? = some '#') :
    ¬ marker <:+: x ++ y := by
  intro h
  rcases infix_append_cases h with h' | h' | ⟨k, hk0, hklen, _, hpre⟩
  · exact hx h'
  · exact hy h'
  · have hdk : marker.drop k ≠ [] := by
      intro hnil
      have hl := congrArg List.length hnil
      rw [List.length_drop, marker_length, List.length_nil] at hl
      rw [marker_length] at hklen
      omega
    have hhd := prefix_head hpre hdk
    rw [hhead] at hhd
    exact marker_drop_head k hklen hk0 hhd

lemma getLast?_append_pair (z : Str) (a b : Char) :
    (z ++ [a, b]).getLast? = some b := by
  rw [show z ++ [a, b] = (z ++ [a]) ++ [b] from by simp, List.getLast?_concat]

lemma marker_not_infix_flatten {parts : List Str}
    (h1 : ∀ s ∈ parts, ¬ marker <:+: s)
    (h2 : ∀ s ∈ parts, s ≠ [] → s.getLast? = some '\n') :
    ¬ marker <:+: parts.flatten := by
  induction parts with
  | nil =>
    intro h
    rw [List.flatten_nil, List.infix_nil] at h
    exact marker_ne_nil h
  | cons p rest ih =>
    have ihr := ih (fun s hs => h1 s (by simp [hs])) (fun s hs => h2 s (by simp [hs]))
    rw [List.flatten_cons]
    by_cases hp : p = []
    · subst hp
      simpa using ihr
    · exact not_marker_infix_append_left (h1 p (by simp)) ihr
        (h2 p (by simp) hp) newline_not_mem_marker

/-! ### Per-cell contribution facts -/

/-- The string contains the export marker exactly once: one occurrence,
whose removal leaves no further occurrence. -/
def MarkerOnce (s : Str) : Prop :=
  ∃ a b, s = a ++ (marker ++ b) ∧ ¬ marker <:+: a ++ b

lemma isExportableCell_marker {c : Cell} (h : isExportableCell c = true) :
    marker <:+: c.code := by
  have h2 : hasSubstr marker c.code = true := by
    simp [isExportableCell] at h
    exact h.2
  exact hasSubstr_iff.mp h2

lemma origin_infix_cleanedCode {rel : Str} {c : Cell} (h : marker <:+: c.code) :
    originComment rel c.cellId <:+: cleanedCode rel c := by
  have h1 : originComment rel c.cellId
      <:+: replaceFirst c.code marker (originComment rel c.cellId) :=
    rep_infix_replaceFirst _ h
  exact infix_pyStrip h1 (originComment_head? _ _) (by decide)
    (originComment_getLast? _ _) (by decide)

lemma cleanedCode_ne_nil {rel : Str} {c : Cell} (h : marker <:+: c.code) :
    cleanedCode rel c ≠ [] := by
  have h1 := @origin_infix_cleanedCode rel _ h
  intro hnil
  rw [hnil, List.infix_nil] at h1
  exact originComment_ne_nil _ _ h1

lemma cellContrib_ne_nil {rel : Str} {c : Cell} (h : marker <:+: c.code) :
    cellContrib rel c ≠ [] := by
  unfold cellContrib
  rw [if_neg (by simpa [List.isEmpty_iff] using @cleanedCode_ne_nil rel _ h)]
  by_cases hpre : (originComment rel c.cellId).isPrefixOf (cleanedCode rel c)
  · rw [if_pos hpre]
    simp
  · rw [if_neg hpre]
    simp

lemma cellContrib_getLast {rel : Str} {c : Cell} (h : marker <:+: c.code) :
    (cellContrib rel c).getLast? = some '\n' := by
  unfold cellContrib
  rw [if_neg (by simpa [List.isEmpty_iff] using @cleanedCode_ne_nil rel _ h)]
  by_cases hpre : (originComment rel c.cellId).isPrefixOf (cleanedCode rel c)
  · rw [if_pos hpre]
    exact getLast?_append_pair _ _ _
  · rw [if_neg hpre]
    exact getLast?_append_pair _ _ _

lemma cellContrib_marker_free {rel : Str} {c : Cell} (hone : MarkerOnce c.code)
    (horig : ¬ marker <:+: originComment rel c.cellId) :
    ¬ marker <:+: cellContrib rel c := by
  obtain ⟨a, b, hcode, hab⟩ := hone
  have hna : ¬ marker <:+: a := fun hc => hab (hc.trans (List.prefix_append a b).isInfix)
  have hnb : ¬ marker <:+: b := fun hc => hab (hc.trans (List.suffix_append a b).isInfix)
  have hrep : replaceFirst c.code marker (originComment rel c.cellId)
      = a ++ (originComment rel c.cellId ++ b) := by
    rw [hcode]
    exact replaceFirst_append marker_ne_nil marker_noSelfOverlap _ a b hna
  have hob : ¬ marker <:+: originComment rel c.cellId ++ b :=
    not_marker_infix_append_left horig hnb (originComment_getLast? _ _)
      rparen_not_mem_marker
  have hinner : ¬ marker <:+: a ++ (originComment rel c.cellId ++ b) :=
    not_marker_infix_append_hash hna hob
      (by rw [List.head?_append, originComment_head?]; rfl)
  have hclean : ¬ marker <:+: cleanedCode rel c := by
    unfold cleanedCode
    intro hc
    rw [hrep] at hc
    exact hinner (hc.trans (pyStrip_within _))
  unfold cellContrib
  by_cases hcond : (cleanedCode rel c).isEmpty
  · rw [if_pos hcond]
    rw [List.infix_nil]
    exact marker_ne_nil
  · rw [if_neg hcond]
    by_cases hpre : (originComment rel c.cellId).isPrefixOf (cleanedCode rel c)
    · rw [if_pos hpre]
      exact not_marker_infix_append_right hclean
        (not_marker_infix_short (by decide)) rfl newline_not_mem_marker
    · rw [if_neg hpre]
      have h1 : ¬ marker <:+: originComment rel c.cellId ++ "\n".data :=
        not_marker_infix_append_right horig (not_marker_infix_short (by decide))
          rfl newline_not_mem_marker
      have h2 : ¬ marker <:+: (originComment rel c.cellId ++ "\n".data)
          ++ cleanedCode rel c :=
        not_marker_infix_append_left h1 hclean
          (by rw [show ("\n".data : Str) = ['\n'] from rfl, List.getLast?_concat])
          newline_not_mem_marker
      exact not_marker_infix_append_right h2 (not_marker_infix_short (by decide))
        rfl newline_not_mem_marker

/-! ### The assembly loop -/

lemma buildLoop_code (app : App) (rel : Str) :
    (buildLoop app rel).1
      = ((orderedExportCells app).map (cellContrib rel)).flatten := by
  unfold buildLoop orderedExportCells
  generalize exportCells app = ec
  suffices h : ∀ (l : List Str) (acc : Str × List Str),
      (l.foldl (fun acc id => match ec.lookup id with
        | none => acc
        | some cell => (acc.1 ++ cellContrib rel cell, match cell.defs with
            | some ds => acc.2 ∪ ds
            | none => acc.2)) acc).1
      = acc.1 ++ ((l.filterMap fun id => ec.lookup id).map (cellContrib rel)).flatten by
    rw [h]
    simp
  intro l
  induction l with
  | nil => intro acc; simp
  | cons id rest ih =>
    intro acc
    rw [List.foldl_cons, List.filterMap_cons]
    cases hlook : ec.lookup id with
    | none =>
      simp only [hlook]
      rw [ih]
    | some cell =>
      simp only [hlook]
      rw [ih]
      simp [List.append_assoc]

/-! ### Association-list lookup -/

lemma lookup_mem {l : List (Str × Cell)} {a : Str} {b : Cell}
    (h : l.lookup a = some b) : (a, b) ∈ l := by
  induction l with
  | nil => simp [List.lookup] at h
  | cons p rest ih =>
    obtain ⟨k, c⟩ := p
    rw [List.lookup_cons] at h
    by_cases he : (a == k) = true
    · simp only [he] at h
      have hak : a = k := eq_of_beq he
      have hcb : c = b := by simpa using h
      subst hak
      subst hcb
      exact List.mem_cons_self _ _
    · rw [Bool.not_eq_true] at he
      simp only [he] at h
      exact List.mem_cons_of_mem _ (ih h)

lemma lookup_eq_some_of_nodup {l : List (Str × Cell)} {a : Str} {b : Cell}
    (hnd : (l.map Prod.fst).Nodup) (hm : (a, b) ∈ l) : l.lookup a = some b := by
  induction l with
  | nil => simp at hm
  | cons p rest ih =>
    obtain ⟨k, c⟩ := p
    rw [List.map_cons, List.nodup_cons] at hnd
    rw [List.lookup_cons]
    rcases List.mem_cons.mp hm with heq | hmem
    · obtain ⟨rfl, rfl⟩ : a = k ∧ b = c := by simpa using heq
      simp
    · have hak : (a == k) = false := by
        by_cases hq : a = k
        · subst hq
          exact absurd (List.mem_map.mpr ⟨(a, b), hmem, rfl⟩) hnd.1
        · simp [hq]
      simp only [hak]
      exact ih hnd.2 hmem

lemma exportCells_keys_nodup {app : App} (h : (app.cells.map Prod.fst).Nodup) :
    ((exportCells app).map Prod.fst).Nodup :=
  h.sublist ((List.filter_sublist _).map Prod.fst)

/-! ### Facts about the per-notebook loop -/

lemma recordDirective_writes (env : Env) (st : ObsState) (p : OutPath)
    (tf : Option Str) : (recordDirective env st p tf).writes = st.writes := by
  unfold recordDirective
  cases tf with
  | none => rfl
  | some f =>
    by_cases h1 : st.writtenFiles.contains p
    · rw [if_pos h1]
    · rw [if_neg h1]
      by_cases h2 : env.diskHas p || st.writes.any (fun w => w.1 == p)
      · rw [if_pos h2]
      · rw [if_neg h2]

lemma recordDirective_exported (env : Env) (st : ObsState) (p : OutPath)
    (tf : Option Str) :
    (recordDirective env st p tf).exportedCount = st.exportedCount := by
  unfold recordDirective
  cases tf with
  | none => rfl
  | some f =>
    by_cases h1 : st.writtenFiles.contains p
    · rw [if_pos h1]
    · rw [if_neg h1]
      by_cases h2 : env.diskHas p || st.writes.any (fun w => w.1 == p)
      · rw [if_pos h2]
      · rw [if_neg h2]

lemma processAll_toObs (env : Env) (st : RunState) (nbs : List Notebook) :
    (processAll env st nbs).toObsState
      = nbs.foldl (exportStep env) st.toObsState := by
  induction nbs generalizing st with
  | nil => rfl
  | cons nb rest ih =>
    show (processAll env (processNotebook env st nb) rest).toObsState = _
    rw [ih]
    rfl

lemma processAll_processedCount (env : Env) (st : RunState) (nbs : List Notebook) :
    (processAll env st nbs).processedCount = st.processedCount + nbs.length := by
  induction nbs generalizing st with
  | nil => simp [processAll]
  | cons nb rest ih =>
    show (processAll env (processNotebook env st nb) rest).processedCount = _
    rw [ih]
    simp [processNotebook]
    omega

lemma exportStep_loaded_none {nb : Notebook} (h : nb.loaded = none)
    (env : Env) (st : ObsState) : exportStep env st nb = st := by
  unfold exportStep
  by_cases hinit : isInitFile nb
  · rw [if_pos hinit]
  · rw [if_neg hinit, h]

lemma exportStep_empty_code {env : Env} {st : ObsState} {nb : Notebook} {app : App}
    (hload : nb.loaded = some app)
    (hcode : (extract_export_details app nb.provenancePath).2.1 = []) :
    exportStep env st nb = st := by
  unfold exportStep
  by_cases hinit : isInitFile nb
  · rw [if_pos hinit]
  · rw [if_neg hinit, hload]
    simp [hcode]

lemma exportStep_write {env : Env} {st : ObsState} {nb : Notebook} {app : App}
    (hload : nb.loaded = some app) (hinit : isInitFile nb = false)
    (hcode : (extract_export_details app nb.provenancePath).2.1 ≠ [])
    (hwr : env.writeOk
      (resolvedPath env nb (extract_export_details app nb.provenancePath).1) = true) :
    (exportStep env st nb).writes
      = st.writes
        ++ [(resolvedPath env nb (extract_export_details app nb.provenancePath).1,
             manifestLine (extract_export_details app nb.provenancePath).2.2
               ++ (extract_export_details app nb.provenancePath).2.1)]
    ∧ (exportStep env st nb).exportedCount = st.exportedCount + 1 := by
  unfold exportStep
  rw [if_neg (by simp [hinit]), hload]
  simp only [List.isEmpty_iff]
  rw [if_neg hcode, if_pos hwr]
  constructor
  · simp [recordDirective_writes]
  · simp [recordDirective_exported]

lemma recordDirective_writtenFiles_some (env : Env) (st : ObsState) (p : OutPath)
    (f : Str) :
    (recordDirective env st p (some f)).writtenFiles = st.writtenFiles ++ [p] := by
  unfold recordDirective
  by_cases h1 : st.writtenFiles.contains p
  · rw [if_pos h1]
  · rw [if_neg h1]
    by_cases h2 : env.diskHas p || st.writes.any (fun w => w.1 == p)
    · rw [if_pos h2]
    · rw [if_neg h2]

lemma recordDirective_collision {env : Env} {st : ObsState} {p : OutPath}
    {f : Str} (h : st.writtenFiles.contains p = true) :
    (recordDirective env st p (some f)).warnings
      = st.warnings ++ [RunWarning.sameRunCollision p] := by
  unfold recordDirective
  rw [if_pos h]

lemma extract_target_eq_head {app : App} (hkeys : (app.cells.map Prod.fst).Nodup)
    (rel : Str) :
    (extract_export_details app rel).1
      = (match (exportCells app).head? with
         | none => none
         | some (_, c) => directiveTarget c.code) := by
  show (match (exportCells app).head? with
    | none => none
    | some (firstId, _) =>
      match app.cells.lookup firstId with
      | none => none
      | some firstCell =>
        if firstCell.language == "python".data then directiveTarget firstCell.code
        else none) = _
  cases hh : (exportCells app).head? with
  | none => rfl
  | some pr =>
    obtain ⟨firstId, firstCell⟩ := pr
    have hmem : (firstId, firstCell) ∈ exportCells app := List.mem_of_mem_head? hh
    have hmem' : (firstId, firstCell) ∈ app.cells ∧
        isExportableCell firstCell = true := by
      unfold exportCells at hmem
      rw [List.mem_filter] at hmem
      exact hmem
    have hlook : app.cells.lookup firstId = some firstCell :=
      lookup_eq_some_of_nodup hkeys hmem'.1
    show (match app.cells.lookup firstId with
      | none => none
      | some firstCell =>
        if firstCell.language == "python".data then directiveTarget firstCell.code
        else none) = directiveTarget firstCell.code
    rw [hlook]
    have hlang : (firstCell.language == "python".data) = true := by
      have := hmem'.2
      simp [isExportableCell] at this
      simp [this.1]
    show (if firstCell.language == "python".data then directiveTarget firstCell.code
      else none) = directiveTarget firstCell.code
    rw [if_pos hlang]

lemma directiveTarget_py {code f : Str} (h : directiveTarget code = some f) :
    ".py".data.isSuffixOf f = true := by
  unfold directiveTarget at h
  cases hf : findDirectiveName code with
  | none => rw [hf] at h; simp at h
  | some raw =>
    rw [hf] at h
    simp only [] at h
    by_cases he : (pyStrip raw).isEmpty
    · rw [if_pos he] at h
      simp at h
    · rw [if_neg he] at h
      by_cases hs : ".py".data.isSuffixOf (pyStrip raw)
      · rw [if_pos hs] at h
        have hfe : pyStrip raw = f := by simpa using h
        rw [← hfe]
        exact hs
      · rw [if_neg hs] at h
        have hfe : pyStrip raw ++ ".py".data = f := by simpa using h
        rw [← hfe, List.isSuffixOf_iff_suffix]
        exact List.suffix_append _ _

lemma extract_target_directive {app : App} {rel f : Str}
    (h : (extract_export_details app rel).1 = some f) :
    ∃ code : Str, directiveTarget code = some f := by
  have h' : (match (exportCells app).head? with
    | none => none
    | some (firstId, _) =>
      match app.cells.lookup firstId with
      | none => none
      | some firstCell =>
        if firstCell.language == "python".data then directiveTarget firstCell.code
        else none) = some f := h
  cases hh : (exportCells app).head? with
  | none => rw [hh] at h'; simp at h'
  | some pr =>
    obtain ⟨firstId, firstCell0⟩ := pr
    rw [hh] at h'
    simp only [] at h'
    cases hl : app.cells.lookup firstId with
    | none => rw [hl] at h'; simp at h'
    | some firstCell =>
      rw [hl] at h'
      have h'' : (if firstCell.language == "python".data then
          directiveTarget firstCell.code else none) = some f := h'
      by_cases hlang : (firstCell.language == "python".data) = true
      · rw [if_pos hlang] at h''
        exact ⟨firstCell.code, h''⟩
      · rw [if_neg hlang] at h''
        simp at h''

lemma filterMap_lookup_nil (l : List Str) :
    (l.filterMap fun id => ([] : List (Str × Cell)).lookup id) = [] := by
  induction l with
  | nil => rfl
  | cons x rest ih => simp [List.filterMap_cons, ih]

/-! ### Concrete notebooks and environments used in witnesses -/

/-- A two-cell notebook whose execution order reverses definition order. -/
def wApp1 : App :=
  { cells :=
      [("a".data, { cellId := "a".data, code := "#| export\nuse_helper()".data,
                    language := "python".data, defs := some ∅ }),
       ("b".data, { cellId := "b".data,
                    code := "#| export\ndef helper(): pass".data,
                    language := "python".data, defs := some ["helper".data] })],
    executionOrder := ["b".data, "a".data] }

/-- A notebook whose first exportable cell has no directive while a later
exportable cell carries a directive-looking line. -/
def wApp7 : App :=
  { cells :=
      [("a".data, { cellId := "a".data, code := "#| export\nx = 1".data,
                    language := "python".data, defs := some ∅ }),
       ("b".data, { cellId := "b".data,
                    code := "#| export\n#| default_exp evil".data,
                    language := "python".data, defs := some ∅ })],
    executionOrder := ["a".data, "b".data] }

/-- A notebook with zero exportable cells. -/
def wApp8 : App :=
  { cells := [("a".data, { cellId := "a".data, code := "x = 1".data,
                           language := "python".data, defs := some ∅ })],
    executionOrder := ["a".data] }

/-- The discovered-file record for `wApp8`. -/
def wNb8 : Notebook :=
  { fileRelPath := ["empty.py".data], provenancePath := "nbs/empty.py".data,
    loaded := some wApp8 }

/-- A benign environment for single-notebook witnesses. -/
def wEnv : Env :=
  { exportRoot := ["src".data], exportRootCreatable := true, nbsDirIsDir := true,
    diskHas := fun _ => false, writeOk := fun _ => true, notebooks := [wNb8] }

/-! ### Claim theorems -/

/-- C1: the assembled output of a notebook is exactly the concatenation, in
the externally supplied execution order, of the contributions of precisely
those cells whose language tag is python and whose source contains the export
marker as a substring (the `exportCells` lookup succeeds exactly for such
cells); every such contribution is non-empty, so each exportable cell reached
by the execution order appears, and definition order plays no role in the
sequencing. -/
theorem c1_assembled_in_execution_order (app : App) (rel : Str)
    (hkeys : (app.cells.map Prod.fst).Nodup) :
    ((extract_export_details app rel).2.1
      = pyStrip (((orderedExportCells app).map (cellContrib rel)).flatten))
    ∧ (∀ id c, (exportCells app).lookup id = some c ↔
        ((id, c) ∈ app.cells ∧ isExportableCell c = true))
    ∧ (∀ c : Cell, isExportableCell c = true → cellContrib rel c ≠ []) := by
  refine ⟨?_, ?_, ?_⟩
  · show pyStrip (buildLoop app rel).1 = _
    rw [buildLoop_code]
  · intro id c
    constructor
    · intro h
      have hm := lookup_mem h
      unfold exportCells at hm
      rw [List.mem_filter] at hm
      exact hm
    · intro hm
      exact lookup_eq_some_of_nodup (exportCells_keys_nodup hkeys)
        (by unfold exportCells; rw [List.mem_filter]; exact hm)
  · intro c hc
    exact cellContrib_ne_nil (isExportableCell_marker hc)

/-- C1 witness: the theorem applied to a concrete notebook whose execution
order reverses definition order. -/
theorem c1_assembled_in_execution_order_witness :
    (wApp1.cells.map Prod.fst).Nodup
    ∧ (extract_export_details wApp1 "nb.py".data).2.1
        = pyStrip (((orderedExportCells wApp1).map (cellContrib "nb.py".data)).flatten) :=
  ⟨by decide, (c1_assembled_in_execution_order wApp1 "nb.py".data (by decide)).1⟩

/-- C7: the directive filename is computed solely from the first exportable
cell in definition order — it equals `directiveTarget` applied to that cell's
source text, and any notebook with the same first exportable cell yields the
same directive filename, whatever its later cells contain. -/
theorem c7_directive_first_cell_only (app : App) (rel : Str)
    (hkeys : (app.cells.map Prod.fst).Nodup) :
    ((extract_export_details app rel).1
      = (match (exportCells app).head? with
         | none => none
         | some (_, c) => directiveTarget c.code))
    ∧ (∀ (app' : App) (rel' : Str), (app'.cells.map Prod.fst).Nodup →
        (exportCells app').head? = (exportCells app).head? →
        (extract_export_details app' rel').1 = (extract_export_details app rel).1) := by
  refine ⟨extract_target_eq_head hkeys rel, ?_⟩
  intro app' rel' hk' hhead
  rw [extract_target_eq_head hk' rel', extract_target_eq_head hkeys rel, hhead]

/-- C7 witness: a notebook whose later cell carries a directive-looking line
still yields no directive, because only the first exportable cell is
consulted. -/
theorem c7_directive_first_cell_only_witness :
    (wApp7.cells.map Prod.fst).Nodup
    ∧ ((extract_export_details wApp7 "nb.py".data).1
        = (match (exportCells wApp7).head? with
           | none => none
           | some (_, c) => directiveTarget c.code))
    ∧ (extract_export_details wApp7 "nb.py".data).1 = none :=
  ⟨by decide, (c7_directive_first_cell_only wApp7 "nb.py".data (by decide)).1,
    by decide⟩

/-- C8: a notebook with zero exportable cells yields empty assembled code, and
a notebook whose assembled code is empty produces no write, no exported-count
increment and no warning — the loop iteration only advances the processed
counter, which is not an error. -/
theorem c8_empty_notebook_no_output (env : Env) (st : RunState) (nb : Notebook)
    (app : App) (hload : nb.loaded = some app) :
    (exportCells app = [] → (extract_export_details app nb.provenancePath).2.1 = [])
    ∧ ((extract_export_details app nb.provenancePath).2.1 = [] →
        processNotebook env st nb
          = { st with processedCount := st.processedCount + 1 }) := by
  constructor
  · intro hec
    show pyStrip (buildLoop app nb.provenancePath).1 = []
    rw [buildLoop_code]
    unfold orderedExportCells
    rw [hec, filterMap_lookup_nil]
    rfl
  · intro hcode
    unfold processNotebook
    rw [exportStep_empty_code hload hcode]

/-- C8 witness: a concrete notebook with no exportable cell leaves the run
state unchanged except for the processed counter. -/
theorem c8_empty_notebook_no_output_witness :
    (wNb8.loaded = some wApp8)
    ∧ ((extract_export_details wApp8 wNb8.provenancePath).2.1 = [])
    ∧ processNotebook wEnv initialRunState wNb8
        = { initialRunState with
            processedCount := initialRunState.processedCount + 1 } :=
  ⟨rfl, by decide,
    (c8_empty_notebook_no_output wEnv initialRunState wNb8 wApp8 rfl).2 (by decide)⟩

/-- A notebook whose load fails (import/parse error, caught in the loop). -/
def wNbBad : Notebook :=
  { fileRelPath := ["bad.py".data], provenancePath := "nbs/bad.py".data,
    loaded := none }

/-- An environment whose middle notebook fails to load. -/
def wEnv9 : Env :=
  { exportRoot := ["src".data], exportRootCreatable := true, nbsDirIsDir := true,
    diskHas := fun _ => false, writeOk := fun _ => true,
    notebooks := [wNb8, wNbBad, wNb8] }

/-- A notebook carrying a `default_exp` directive, in a nested directory. -/
def wApp2 : App :=
  { cells := [("a".data,
      { cellId := "a".data,
        code := "#| default_exp shared\n#| export\nx = 1".data,
        language := "python".data, defs := some ["x".data] })],
    executionOrder := ["a".data] }

/-- The discovered-file record for `wApp2`, under a sub-directory. -/
def wNb2 : Notebook :=
  { fileRelPath := ["sub".data, "deep.py".data],
    provenancePath := "nbs/sub/deep.py".data, loaded := some wApp2 }

/-- C9: the process exit code is non-zero exactly when a fatal condition holds
(export root not creatable, or notebook root missing/not a directory); a load
failure of one notebook is absorbed inside the per-notebook loop — the run's
observable outcome (writes, exported counter, warnings, collision record) is
the same as if that notebook were absent, only the processed counter
advances, and the run still exits successfully. -/
theorem c9_load_failure_contained (env : Env) (as cs : List Notebook)
    (bad : Notebook) (hbad : bad.loaded = none)
    (hnbs : env.notebooks = as ++ bad :: cs) :
    (run_export env = Except.error 1
      ↔ (env.exportRootCreatable = false ∨ env.nbsDirIsDir = false))
    ∧ (∀ st : RunState,
        (processAll env st (as ++ bad :: cs)).toObsState
          = (processAll env st (as ++ cs)).toObsState)
    ∧ (env.exportRootCreatable = true → env.nbsDirIsDir = true →
        run_export env
          = Except.ok (processAll env initialRunState (as ++ bad :: cs))) := by
  refine ⟨?_, ?_, ?_⟩
  · unfold run_export
    by_cases h1 : env.exportRootCreatable = false
    · rw [if_pos h1]
      simp [h1]
    · rw [if_neg h1]
      by_cases h2 : env.nbsDirIsDir = false
      · rw [if_pos h2]
        simp [h2]
      · rw [if_neg h2]
        simp [h1, h2]
  · intro st
    rw [processAll_toObs, processAll_toObs, List.foldl_append, List.foldl_append,
      List.foldl_cons, exportStep_loaded_none hbad]
  · intro h1 h2
    unfold run_export
    rw [if_neg (by simp [h1]), if_neg (by simp [h2]), hnbs]

/-- C9 witness: a concrete run in which the middle of three notebooks fails
to load; the exit code is zero and the observable state matches the run
without the failing notebook. -/
theorem c9_load_failure_contained_witness :
    (wNbBad.loaded = none)
    ∧ (run_export wEnv9 = Except.error 1
        ↔ (wEnv9.exportRootCreatable = false ∨ wEnv9.nbsDirIsDir = false))
    ∧ ((processAll wEnv9 initialRunState ([wNb8] ++ wNbBad :: [wNb8])).toObsState
        = (processAll wEnv9 initialRunState ([wNb8] ++ [wNb8])).toObsState) := by
  have h := c9_load_failure_contained wEnv9 [wNb8] [wNb8] wNbBad rfl rfl
  exact ⟨rfl, h.1, h.2.1 initialRunState⟩

/-- C2: when a notebook with non-empty assembled code yields a directive
filename, its output is written to `export_root / filename` — a path that is
independent of the notebook's own relative path — and the directive filename
always ends in `.py` (the extension is appended when missing); with no
directive the output goes to `export_root / (notebook path relative to the
notebook root)`, preserving sub-directory structure and filename. -/
theorem c2_output_path_resolution (env : Env) (st : ObsState) (nb : Notebook)
    (app : App) (hload : nb.loaded = some app) (hinit : isInitFile nb = false)
    (hcode : (extract_export_details app nb.provenancePath).2.1 ≠ [])
    (hwr : env.writeOk
      (resolvedPath env nb (extract_export_details app nb.provenancePath).1) = true) :
    ((exportStep env st nb).writes
      = st.writes
        ++ [(resolvedPath env nb (extract_export_details app nb.provenancePath).1,
             manifestLine (extract_export_details app nb.provenancePath).2.2
               ++ (extract_export_details app nb.provenancePath).2.1)])
    ∧ (∀ f, (extract_export_details app nb.provenancePath).1 = some f →
        ".py".data.isSuffixOf f = true)
    ∧ (∀ f : Str, resolvedPath env nb (some f) = env.exportRoot ++ [f])
    ∧ (resolvedPath env nb none = env.exportRoot ++ nb.fileRelPath)
    ∧ (∀ (f : Str) (nb' : Notebook), resolvedPath env nb' (some f)
        = resolvedPath env nb (some f)) := by
  refine ⟨(exportStep_write hload hinit hcode hwr).1, ?_, fun f => rfl, rfl,
    fun f nb' => rfl⟩
  intro f hf
  obtain ⟨code, hc⟩ := extract_target_directive hf
  exact directiveTarget_py hc

/-- C2 witness: a deeply nested notebook with a `default_exp shared`
directive writes to `export_root / shared.py`. -/
theorem c2_output_path_resolution_witness :
    ((extract_export_details wApp2 wNb2.provenancePath).1 = some "shared.py".data)
    ∧ ((extract_export_details wApp2 wNb2.provenancePath).2.1 ≠ [])
    ∧ ((exportStep wEnv ⟨0, [], [], []⟩ wNb2).writes
        = [] ++ [(resolvedPath wEnv wNb2
              (extract_export_details wApp2 wNb2.provenancePath).1,
             manifestLine (extract_export_details wApp2 wNb2.provenancePath).2.2
               ++ (extract_export_details wApp2 wNb2.provenancePath).2.1)])
    ∧ (∀ f, (extract_export_details wApp2 wNb2.provenancePath).1 = some f →
        ".py".data.isSuffixOf f = true) := by
  have h := c2_output_path_resolution wEnv ⟨0, [], [], []⟩ wNb2 wApp2 rfl (by decide)
    (by decide) rfl
  exact ⟨by decide, by decide, h.1, h.2.1⟩

/-- C4: the written content is exactly the `__all__` manifest line — the
sorted, quoted, comma-separated public names, underscore-prefixed names
excluded — followed by a blank line and then the assembled code; for defined
names {"foo", "_bar", "Baz"} the manifest line is exactly
`__all__ = ['Baz', 'foo']`. -/
theorem c4_manifest_first_line (env : Env) (st : ObsState) (nb : Notebook)
    (app : App) (hload : nb.loaded = some app) (hinit : isInitFile nb = false)
    (hcode : (extract_export_details app nb.provenancePath).2.1 ≠ [])
    (hwr : env.writeOk
      (resolvedPath env nb (extract_export_details app nb.provenancePath).1) = true) :
    ((exportStep env st nb).writes
      = st.writes
        ++ [(resolvedPath env nb (extract_export_details app nb.provenancePath).1,
             ("__all__ = ".data
                ++ pyReprStrList (publicSortedNames
                     (extract_export_details app nb.provenancePath).2.2))
               ++ "\n\n".data
               ++ (extract_export_details app nb.provenancePath).2.1)])
    ∧ (∀ defs : List Str, List.Sorted (· ≤ ·) (publicSortedNames defs))
    ∧ (∀ (defs : List Str) (n : Str),
        n ∈ publicSortedNames defs ↔ n ∈ defs ∧ "_".data.isPrefixOf n = false)
    ∧ manifestLine ["foo".data, "_bar".data, "Baz".data]
        = "__all__ = ['Baz', 'foo']\n\n".data := by
  refine ⟨?_, ?_, ?_, by decide⟩
  · have h := (@exportStep_write env st nb app hload hinit hcode hwr).1
    rw [h]
    rfl
  · intro defs
    exact List.sorted_insertionSort _ _
  · intro defs n
    unfold publicSortedNames
    rw [List.mem_insertionSort, List.mem_dedup, List.mem_filter]
    simp

/-- C4 witness: the manifest conjuncts instantiated on a concrete notebook
write. -/
theorem c4_manifest_first_line_witness :
    ((extract_export_details wApp2 wNb2.provenancePath).2.1 ≠ [])
    ∧ ((exportStep wEnv ⟨0, [], [], []⟩ wNb2).writes
        = [] ++ [(resolvedPath wEnv wNb2
              (extract_export_details wApp2 wNb2.provenancePath).1,
             ("__all__ = ".data
                ++ pyReprStrList (publicSortedNames
                     (extract_export_details wApp2 wNb2.provenancePath).2.2))
               ++ "\n\n".data
               ++ (extract_export_details wApp2 wNb2.provenancePath).2.1)])
    ∧ manifestLine ["foo".data, "_bar".data, "Baz".data]
        = "__all__ = ['Baz', 'foo']\n\n".data := by
  have h := c4_manifest_first_line wEnv ⟨0, [], [], []⟩ wNb2 wApp2 rfl (by decide)
    (by decide) rfl
  exact ⟨by decide, h.1, h.2.2.2⟩

lemma not_infix_of_hasSubstr_false {pat s : Str} (h : hasSubstr pat s = false) :
    ¬ pat <:+: s := by
  intro hc
  rw [hasSubstr_iff.mpr hc] at h
  simp at h

lemma exportStep_directive {env : Env} {st : ObsState} {nb : Notebook}
    {app : App} {f : Str} (hload : nb.loaded = some app)
    (hinit : isInitFile nb = false)
    (ht : (extract_export_details app nb.provenancePath).1 = some f)
    (hcode : (extract_export_details app nb.provenancePath).2.1 ≠ [])
    (hwr : env.writeOk (env.exportRoot ++ [f]) = true) :
    exportStep env st nb
      = { recordDirective env st (env.exportRoot ++ [f]) (some f) with
          writes := (recordDirective env st (env.exportRoot ++ [f]) (some f)).writes
            ++ [(env.exportRoot ++ [f],
                 manifestLine (extract_export_details app nb.provenancePath).2.2
                   ++ (extract_export_details app nb.provenancePath).2.1)],
          exportedCount :=
            (recordDirective env st (env.exportRoot ++ [f])
              (some f)).exportedCount + 1 } := by
  unfold exportStep
  rw [if_neg (by simp [hinit]), hload]
  simp only [List.isEmpty_iff]
  rw [if_neg hcode]
  have hp : resolvedPath env nb (extract_export_details app nb.provenancePath).1
      = env.exportRoot ++ [f] := by
    rw [ht]
    rfl
  rw [hp, ht, if_pos hwr]

/-- A single-cell notebook containing the marker exactly once. -/
def wApp3 : App :=
  { cells := [("a".data,
      { cellId := "a".data, code := "#| export\nx = 1".data,
        language := "python".data, defs := some [] })],
    executionOrder := ["a".data] }

/-- A single-cell notebook containing the marker twice. -/
def wApp3Bad : App :=
  { cells := [("a".data,
      { cellId := "a".data, code := "#| export\n#| export\nx = 1".data,
        language := "python".data, defs := some [] })],
    executionOrder := ["a".data] }

/-- A single-cell notebook whose cell source is exactly the marker. -/
def wApp5 : App :=
  { cells := [("a".data,
      { cellId := "a".data, code := "#| export".data,
        language := "python".data, defs := some [] })],
    executionOrder := ["a".data] }

/-- A cell whose marker is not at the start of its source. -/
def wCell10 : Cell :=
  { cellId := "a".data, code := "x = 1\n#| export".data,
    language := "python".data, defs := some [] }

/-- First of two notebooks claiming `default_exp shared`. -/
def wApp6a : App :=
  { cells := [("a".data,
      { cellId := "a".data,
        code := "#| default_exp shared\n#| export\nx = 1".data,
        language := "python".data, defs := some ["x".data] })],
    executionOrder := ["a".data] }

/-- Second of two notebooks claiming `default_exp shared`. -/
def wApp6b : App :=
  { cells := [("b".data,
      { cellId := "b".data,
        code := "#| default_exp shared\n#| export\ny = 2".data,
        language := "python".data, defs := some ["y".data] })],
    executionOrder := ["b".data] }

/-- The discovered-file record for `wApp6a`. -/
def wNb6a : Notebook :=
  { fileRelPath := ["one.py".data], provenancePath := "nbs/one.py".data,
    loaded := some wApp6a }

/-- The discovered-file record for `wApp6b`. -/
def wNb6b : Notebook :=
  { fileRelPath := ["two.py".data], provenancePath := "nbs/two.py".data,
    loaded := some wApp6b }

/-- An environment running exactly the two colliding notebooks. -/
def wEnv6 : Env :=
  { exportRoot := ["src".data], exportRootCreatable := true, nbsDirIsDir := true,
    diskHas := fun _ => false, writeOk := fun _ => true,
    notebooks := [wNb6a, wNb6b] }

/-- C3 counterexample: for a cell whose source contains the marker twice, the
assembled output still contains the literal marker text — only the first
occurrence is replaced — refuting the claim that the output never contains
the marker. -/
theorem c3_counterexample_second_marker_survives :
    hasSubstr marker (extract_export_details wApp3Bad "nb.py".data).2.1 = true := by
  decide

/-- C3 (amended): for every string containing the marker, `replaceFirst`
replaces exactly the first (leftmost) occurrence by the given text; and the
assembled output contains no literal marker text provided every exportable
cell's source contains the marker exactly once and no provenance comment
itself contains the marker (occurrences after the first are preserved and
would survive into the output). -/
theorem c3_first_marker_replaced (app : App) (rel : Str)
    (hone : ∀ p ∈ app.cells, isExportableCell p.2 = true → MarkerOnce p.2.code)
    (horig : ∀ p ∈ app.cells, ¬ marker <:+: originComment rel p.2.cellId) :
    (∀ s rep : Str, marker <:+: s →
      ∃ u v, s = u ++ marker ++ v ∧ replaceFirst s marker rep = u ++ rep ++ v ∧
        ∀ u' v', s = u' ++ marker ++ v' → u.length ≤ u'.length)
    ∧ hasSubstr marker (extract_export_details app rel).2.1 = false := by
  refine ⟨fun s rep h => replaceFirst_spec rep h, ?_⟩
  have hfree : ∀ s ∈ (orderedExportCells app).map (cellContrib rel),
      ¬ marker <:+: s := by
    intro s hs
    rw [List.mem_map] at hs
    obtain ⟨c, hc, rfl⟩ := hs
    unfold orderedExportCells at hc
    rw [List.mem_filterMap] at hc
    obtain ⟨id, _, hlook⟩ := hc
    have hmem := lookup_mem hlook
    unfold exportCells at hmem
    rw [List.mem_filter] at hmem
    exact cellContrib_marker_free (hone _ hmem.1 hmem.2) (horig _ hmem.1)
  have hlast : ∀ s ∈ (orderedExportCells app).map (cellContrib rel), s ≠ [] →
      s.getLast? = some '\n' := by
    intro s hs _
    rw [List.mem_map] at hs
    obtain ⟨c, hc, rfl⟩ := hs
    unfold orderedExportCells at hc
    rw [List.mem_filterMap] at hc
    obtain ⟨id, _, hlook⟩ := hc
    have hmem := lookup_mem hlook
    unfold exportCells at hmem
    rw [List.mem_filter] at hmem
    exact cellContrib_getLast (isExportableCell_marker hmem.2)
  have hflat := marker_not_infix_flatten hfree hlast
  have hmain : ¬ marker <:+: (extract_export_details app rel).2.1 := by
    show ¬ marker <:+: pyStrip (buildLoop app rel).1
    rw [buildLoop_code]
    intro hc
    exact hflat (hc.trans (pyStrip_within _))
  exact Bool.eq_false_iff.mpr (fun h => hmain (hasSubstr_iff.mp h))

/-- C3 witness: a concrete notebook with exactly one marker per cell whose
assembled output is marker-free. -/
theorem c3_first_marker_replaced_witness :
    hasSubstr marker (extract_export_details wApp3 "nb.py".data).2.1 = false := by
  have hone : ∀ p ∈ wApp3.cells, isExportableCell p.2 = true →
      MarkerOnce p.2.code := by
    intro p hp _
    rcases List.mem_singleton.mp hp with rfl
    exact ⟨[], "\nx = 1".data, by decide, not_infix_of_hasSubstr_false (by decide)⟩
  have horig : ∀ p ∈ wApp3.cells,
      ¬ marker <:+: originComment "nb.py".data p.2.cellId := by
    intro p hp
    rcases List.mem_singleton.mp hp with rfl
    exact not_infix_of_hasSubstr_false (by decide)
  exact (c3_first_marker_replaced wApp3 "nb.py".data hone horig).2

/-- C5 counterexample: a cell whose source is exactly the marker is not
dropped — its contribution is the dangling provenance comment, so the
assembled output is that comment rather than empty. -/
theorem c5_counterexample_dangling_comment :
    (extract_export_details wApp5 "nb.py".data).2.1
      = originComment "nb.py".data "a".data
    ∧ (extract_export_details wApp5 "nb.py".data).2.1 ≠ [] :=
  ⟨by decide, by decide⟩

/-- C5 (amended): a cell's contribution is dropped only when the replaced,
trimmed text is empty, but that text always contains the non-empty provenance
comment, so no exportable cell is ever dropped; in particular a cell whose
source is exactly the marker contributes just the dangling provenance
comment line. -/
theorem c5_marker_only_cell_contributes (rel : Str) :
    (∀ c : Cell, isExportableCell c = true →
      cleanedCode rel c ≠ [] ∧ cellContrib rel c ≠ [])
    ∧ (∀ (id lang : Str) (ds : Option (List Str)),
        cellContrib rel { cellId := id, code := marker, language := lang, defs := ds }
          = originComment rel id ++ "\n\n".data) := by
  constructor
  · intro c hc
    have hm := isExportableCell_marker hc
    exact ⟨cleanedCode_ne_nil hm, cellContrib_ne_nil hm⟩
  · intro id lang ds
    have hrep : replaceFirst marker marker (originComment rel id)
        = originComment rel id := by
      have h := replaceFirst_append marker_ne_nil marker_noSelfOverlap
        (originComment rel id) [] []
        (fun hcon => marker_ne_nil (List.infix_nil.mp hcon))
      simpa using h
    have hclean : cleanedCode rel
        { cellId := id, code := marker, language := lang, defs := ds }
        = originComment rel id := by
      show pyStrip (replaceFirst marker marker (originComment rel id)) = _
      rw [hrep]
      exact pyStrip_of_ends (originComment_head? rel id) (by decide)
        (originComment_getLast? rel id) (by decide)
    unfold cellContrib
    rw [hclean]
    rw [if_neg (by simpa [List.isEmpty_iff] using originComment_ne_nil rel id)]
    rw [if_pos (isPrefixOf_eq.mpr (List.prefix_refl _))]

/-- C5 amended-claim witness: instantiation on a concrete exportable cell and
a concrete marker-only cell. -/
theorem c5_marker_only_cell_contributes_witness :
    (isExportableCell wCell10 = true)
    ∧ cellContrib "nb.py".data wCell10 ≠ []
    ∧ cellContrib "nb.py".data
        { cellId := "a".data, code := marker, language := "python".data,
          defs := some [] }
        = originComment "nb.py".data "a".data ++ "\n\n".data :=
  ⟨by decide,
    ((c5_marker_only_cell_contributes "nb.py".data).1 wCell10 (by decide)).2,
    (c5_marker_only_cell_contributes "nb.py".data).2 "a".data "python".data
      (some [])⟩

/-- C10: every cell contribution in the assembled output begins with that
cell's provenance comment line; when the cleaned text does not already start
with the comment, the assembler prepends another copy, and the comment also
occurs inside the cleaned text, so it appears twice in that contribution. -/
theorem c10_contribution_begins_with_provenance (rel : Str) (c : Cell)
    (hexp : isExportableCell c = true) :
    (originComment rel c.cellId <+: cellContrib rel c)
    ∧ (¬ (originComment rel c.cellId).isPrefixOf (cleanedCode rel c) = true →
        cellContrib rel c
          = originComment rel c.cellId ++ "\n".data ++ cleanedCode rel c
            ++ "\n\n".data
        ∧ originComment rel c.cellId <:+: cleanedCode rel c) := by
  have hmark := isExportableCell_marker hexp
  have hne := @cleanedCode_ne_nil rel _ hmark
  have hoin := @origin_infix_cleanedCode rel _ hmark
  constructor
  · unfold cellContrib
    rw [if_neg (by simpa [List.isEmpty_iff] using hne)]
    by_cases hpre : (originComment rel c.cellId).isPrefixOf (cleanedCode rel c)
    · rw [if_pos hpre]
      exact (isPrefixOf_eq.mp hpre).trans (List.prefix_append _ _)
    · rw [if_neg hpre]
      exact ((List.prefix_append _ _).trans (List.prefix_append _ _)).trans
        (List.prefix_append _ _)
  · intro hpre
    refine ⟨?_, hoin⟩
    unfold cellContrib
    rw [if_neg (by simpa [List.isEmpty_iff] using hne), if_neg hpre]

/-- C10 witness: a cell whose marker is not at the start still yields a
contribution beginning with the provenance comment. -/
theorem c10_contribution_begins_with_provenance_witness :
    (isExportableCell wCell10 = true)
    ∧ (originComment "nb.py".data wCell10.cellId
        <+: cellContrib "nb.py".data wCell10) :=
  ⟨by decide,
    (c10_contribution_begins_with_provenance "nb.py".data wCell10 (by decide)).1⟩

/-- C6: when two notebooks in one run both carry a directive resolving to the
same output path, both writes occur in order: the second emits a same-run
collision warning because the path is already in the written-files record,
the run does not abort (both writes are counted and it exits successfully),
and the last write wins. -/
theorem c6_same_run_collision (env : Env) (nb1 nb2 : Notebook)
    (app1 app2 : App) (f : Str)
    (hcr : env.exportRootCreatable = true) (hdir : env.nbsDirIsDir = true)
    (hnbs : env.notebooks = [nb1, nb2])
    (hl1 : nb1.loaded = some app1) (hl2 : nb2.loaded = some app2)
    (hi1 : isInitFile nb1 = false) (hi2 : isInitFile nb2 = false)
    (ht1 : (extract_export_details app1 nb1.provenancePath).1 = some f)
    (ht2 : (extract_export_details app2 nb2.provenancePath).1 = some f)
    (hc1 : (extract_export_details app1 nb1.provenancePath).2.1 ≠ [])
    (hc2 : (extract_export_details app2 nb2.provenancePath).2.1 ≠ [])
    (hwr : env.writeOk (env.exportRoot ++ [f]) = true) :
    ∃ final : RunState, run_export env = Except.ok final
      ∧ final.writes
          = [(env.exportRoot ++ [f],
              manifestLine (extract_export_details app1 nb1.provenancePath).2.2
                ++ (extract_export_details app1 nb1.provenancePath).2.1),
             (env.exportRoot ++ [f],
              manifestLine (extract_export_details app2 nb2.provenancePath).2.2
                ++ (extract_export_details app2 nb2.provenancePath).2.1)]
      ∧ RunWarning.sameRunCollision (env.exportRoot ++ [f]) ∈ final.warnings
      ∧ final.exportedCount = 2
      ∧ finalContent final.writes (env.exportRoot ++ [f])
          = some (manifestLine (extract_export_details app2 nb2.provenancePath).2.2
              ++ (extract_export_details app2 nb2.provenancePath).2.1) := by
  have hrun : run_export env
      = Except.ok (processAll env initialRunState [nb1, nb2]) := by
    unfold run_export
    rw [if_neg (by simp [hcr]), if_neg (by simp [hdir]), hnbs]
  have hobs : (processAll env initialRunState [nb1, nb2]).toObsState
      = exportStep env (exportStep env ⟨0, [], [], []⟩ nb1) nb2 := by
    rw [processAll_toObs]
    rfl
  have he1 := @exportStep_directive env ⟨0, [], [], []⟩ nb1 app1 f hl1 hi1 ht1 hc1 hwr
  have h1w : (exportStep env ⟨0, [], [], []⟩ nb1).writes
      = [(env.exportRoot ++ [f],
          manifestLine (extract_export_details app1 nb1.provenancePath).2.2
            ++ (extract_export_details app1 nb1.provenancePath).2.1)] := by
    rw [he1]
    show (recordDirective env ⟨0, [], [], []⟩ (env.exportRoot ++ [f])
      (some f)).writes ++ _ = _
    rw [recordDirective_writes]
    rfl
  have h1e : (exportStep env ⟨0, [], [], []⟩ nb1).exportedCount = 1 := by
    rw [he1]
    show (recordDirective env ⟨0, [], [], []⟩ (env.exportRoot ++ [f])
      (some f)).exportedCount + 1 = 1
    rw [recordDirective_exported]
  have h1f : (exportStep env ⟨0, [], [], []⟩ nb1).writtenFiles
      = [env.exportRoot ++ [f]] := by
    rw [he1]
    show (recordDirective env ⟨0, [], [], []⟩ (env.exportRoot ++ [f])
      (some f)).writtenFiles = _
    rw [recordDirective_writtenFiles_some]
    rfl
  have he2 := @exportStep_directive env (exportStep env ⟨0, [], [], []⟩ nb1) nb2
    app2 f hl2 hi2 ht2 hc2 hwr
  have hcont : (exportStep env ⟨0, [], [], []⟩ nb1).writtenFiles.contains
      (env.exportRoot ++ [f]) = true := by
    rw [h1f]
    simp
  have h2w : (exportStep env (exportStep env ⟨0, [], [], []⟩ nb1) nb2).writes
      = [(env.exportRoot ++ [f],
          manifestLine (extract_export_details app1 nb1.provenancePath).2.2
            ++ (extract_export_details app1 nb1.provenancePath).2.1),
         (env.exportRoot ++ [f],
          manifestLine (extract_export_details app2 nb2.provenancePath).2.2
            ++ (extract_export_details app2 nb2.provenancePath).2.1)] := by
    rw [he2]
    show (recordDirective env (exportStep env ⟨0, [], [], []⟩ nb1)
      (env.exportRoot ++ [f]) (some f)).writes ++ _ = _
    rw [recordDirective_writes, h1w]
    rfl
  have h2e : (exportStep env (exportStep env ⟨0, [], [], []⟩ nb1) nb2).exportedCount
      = 2 := by
    rw [he2]
    show (recordDirective env (exportStep env ⟨0, [], [], []⟩ nb1)
      (env.exportRoot ++ [f]) (some f)).exportedCount + 1 = 2
    rw [recordDirective_exported, h1e]
  have h2warn : RunWarning.sameRunCollision (env.exportRoot ++ [f])
      ∈ (exportStep env (exportStep env ⟨0, [], [], []⟩ nb1) nb2).warnings := by
    rw [he2]
    show _ ∈ (recordDirective env (exportStep env ⟨0, [], [], []⟩ nb1)
      (env.exportRoot ++ [f]) (some f)).warnings
    rw [recordDirective_collision hcont]
    simp
  refine ⟨processAll env initialRunState [nb1, nb2], hrun, ?_, ?_, ?_, ?_⟩
  · show (processAll env initialRunState [nb1, nb2]).toObsState.writes = _
    rw [hobs, h2w]
  · show _ ∈ (processAll env initialRunState [nb1, nb2]).toObsState.warnings
    rw [hobs]
    exact h2warn
  · show (processAll env initialRunState [nb1, nb2]).toObsState.exportedCount = 2
    rw [hobs, h2e]
  · show finalContent (processAll env initialRunState [nb1, nb2]).toObsState.writes _
      = _
    rw [hobs, h2w]
    simp [finalContent]

/-- C6 witness: two concrete notebooks both carrying `default_exp shared`
produce two successful writes and a same-run collision warning. -/
theorem c6_same_run_collision_witness :
    ((extract_export_details wApp6a wNb6a.provenancePath).1
        = some "shared.py".data)
    ∧ ∃ final : RunState, run_export wEnv6 = Except.ok final
        ∧ RunWarning.sameRunCollision (wEnv6.exportRoot ++ ["shared.py".data])
            ∈ final.warnings
        ∧ final.exportedCount = 2 := by
  have h := c6_same_run_collision wEnv6 wNb6a wNb6b wApp6a wApp6b
    "shared.py".data rfl rfl rfl rfl rfl (by decide) (by decide) (by decide)
    (by decide) (by decide) (by decide) rfl
  obtain ⟨final, hr, _, hmem, he, _⟩ := h
  exact ⟨by decide, final, hr, hmem, he⟩

end Modev
